import Mathlib

/-!
Verification development for the sage peptide-search pipeline.

The two source files under verification are `crates/sage/src/ml/retention_model.rs`
(retention-time linear regression) and `src/bin/sage.rs` (the pipeline driver).
Rust `f64` values are modelled as `ℚ` (exact arithmetic; the claims under study
are structural, not about rounding), `usize` as `ℕ`, and `i32` labels as `ℤ`.
The Rust standard-library float intrinsic `ln_1p` is kept abstract as a function
parameter `ln1p : ℚ → ℚ`.

Code of the repository that is referenced by the two files but absent from the
sources (the `Gauss` solver, `Matrix`, `VALID_AA`, the scorer, the spectrum
processor, the LDA rescoring and `assign_q_values`) is modelled from the spec;
each such definition carries a doc comment saying so.
-/

set_option maxHeartbeats 1000000

/-- `l.getD i 0`: read a rational vector at an index, 0 out of range. -/
def getq (l : List ℚ) (i : Nat) : ℚ := l.getD i 0

theorem getq_nil (i : Nat) : getq [] i = 0 := by
  cases i <;> rfl

theorem getq_cons_zero (a : ℚ) (t : List ℚ) : getq (a :: t) 0 = a := rfl

theorem getq_cons_succ (a : ℚ) (t : List ℚ) (i : Nat) :
    getq (a :: t) (i + 1) = getq t i := rfl

theorem getq_set (l : List ℚ) (i j : Nat) (x : ℚ) :
    getq (l.set i x) j = if i = j ∧ j < l.length then x else getq l j := by
  induction l generalizing i j with
  | nil => simp [getq]
  | cons a t ih =>
    cases i with
    | zero =>
      cases j with
      | zero => simp [getq]
      | succ j' => simp [getq_cons_succ, List.set]
    | succ i' =>
      cases j with
      | zero => simp [getq, List.set]
      | succ j' =>
        simp only [List.set, getq_cons_succ, ih, List.length_cons]
        have hc : (i' = j' ∧ j' < t.length) ↔ (i' + 1 = j' + 1 ∧ j' + 1 < t.length + 1) := by
          omega
        rw [if_congr hc rfl rfl]

theorem getq_replicate (n i : Nat) : getq (List.replicate n (0 : ℚ)) i = 0 := by
  induction n generalizing i with
  | zero => simp [getq]
  | succ m ih =>
    cases i with
    | zero => rfl
    | succ i' => simpa [List.replicate, getq_cons_succ] using ih i'

/-- A peptide: residue sequence (letter codes `0..26`, `A = 0`) plus its
monoisotopic neutral mass.  Translated from `Peptide` as used by
`retention_model.rs` (only the fields it reads). -/
structure Peptide where
  sequence : List (Fin 26)
  monoisotopic : ℚ
deriving DecidableEq

/-- Modelled from the spec: the 20 canonical amino acids (spec §3, §4.5: "A=20",
residue vector "over the 20 canonical amino acid codes"); `crates/sage/src/mass.rs`
is not among the sources.  Letter codes relative to `A`. -/
def VALID_AA : List (Fin 26) :=
  [0, 2, 3, 4, 5, 6, 7, 8, 10, 11, 12, 13, 15, 16, 17, 18, 19, 21, 22, 24]

/-- `const FEATURES: usize = VALID_AA.len() * 3 + 3` -/
def FEATURES : Nat := VALID_AA.length * 3 + 3

/-- `const N_TERMINAL: usize = VALID_AA.len()` -/
def N_TERMINAL : Nat := VALID_AA.length

/-- `const C_TERMINAL: usize = VALID_AA.len() * 2` -/
def C_TERMINAL : Nat := VALID_AA.length * 2

/-- `const PEPTIDE_LEN: usize = FEATURES - 3` -/
def PEPTIDE_LEN : Nat := FEATURES - 3

/-- `const PEPTIDE_MASS: usize = FEATURES - 2` -/
def PEPTIDE_MASS : Nat := FEATURES - 2

/-- `const INTERCEPT: usize = FEATURES - 1` -/
def INTERCEPT : Nat := FEATURES - 1

/-- The residue-to-embedding-index map built at the top of `RetentionModel::fit`
(lines 64–67): `map[(aa − b'A')] = idx` over the enumeration of `VALID_AA`,
starting from an all-zero array. -/
def aaIndexMap : Fin 26 → Nat :=
  VALID_AA.enum.foldl (fun m p => Function.update m p.2 p.1) (fun _ => 0)

/-- `embedding[idx] += 1.0` on a length-`FEATURES` vector. -/
def bump (l : List ℚ) (i : Nat) : List ℚ := l.set i (getq l i + 1)

theorem bump_length (l : List ℚ) (i : Nat) : (bump l i).length = l.length := by
  simp [bump]

theorem getq_bump (l : List ℚ) (i j : Nat) (hj : j < l.length) :
    getq (bump l i) j = getq l j + if i = j then 1 else 0 := by
  rw [bump, getq_set]
  by_cases h : i = j <;> simp [h, hj]

/-- The body of the `for (aa_idx, residue) in peptide.sequence.iter().enumerate()`
loop of `RetentionModel::embed` (lines 45–54), with the enumeration counter made
explicit.  Note the `match` arm order: `0 | 1` is tried before the
`x if x == cterm || x == cterm + 1` guard. -/
def embedLoop (map : Fin 26 → Nat) (cterm : Nat) : Nat → List (Fin 26) → List ℚ → List ℚ
  | _, [], e => e
  | ai, r :: rest, e =>
    let idx := map r
    let e1 := bump e idx
    let e2 :=
      if ai = 0 ∨ ai = 1 then bump e1 (N_TERMINAL + idx)
      else if ai = cterm ∨ ai = cterm + 1 then bump e1 (C_TERMINAL + idx)
      else e1
    embedLoop map cterm (ai + 1) rest e2

/-- `RetentionModel::embed` (lines 42–59): one-hot residue counts, N- and
C-terminal windows, raw length, `ln_1p` of the monoisotopic mass, an intercept.
`cterm = sequence.len().saturating_sub(3)` is ℕ-subtraction. -/
def RetentionModel.embed (ln1p : ℚ → ℚ) (p : Peptide) (map : Fin 26 → Nat) : List ℚ :=
  let cterm := p.sequence.length - 3
  let e := embedLoop map cterm 0 p.sequence (List.replicate FEATURES 0)
  ((e.set PEPTIDE_LEN (p.sequence.length : ℚ)).set PEPTIDE_MASS
    (ln1p p.monoisotopic)).set INTERCEPT 1

theorem VALID_AA_length : VALID_AA.length = 20 := by decide

theorem N_TERMINAL_eq : N_TERMINAL = 20 := by decide

theorem C_TERMINAL_eq : C_TERMINAL = 40 := by decide

theorem FEATURES_eq : FEATURES = 63 := by decide

theorem PEPTIDE_LEN_eq : PEPTIDE_LEN = 60 := by decide

theorem PEPTIDE_MASS_eq : PEPTIDE_MASS = 61 := by decide

theorem INTERCEPT_eq : INTERCEPT = 62 := by decide

theorem aaIndexMap_lt (c : Fin 26) : aaIndexMap c < 20 := by
  revert c; decide

theorem aaIndexMap_inj (a b : Fin 26) (ha : a ∈ VALID_AA) (hb : b ∈ VALID_AA)
    (h : aaIndexMap a = aaIndexMap b) : a = b := by
  revert a b; decide

theorem embedLoop_length (map : Fin 26 → Nat) (cterm : Nat) :
    ∀ (l : List (Fin 26)) (ai : Nat) (e : List ℚ),
      (embedLoop map cterm ai l e).length = e.length := by
  intro l
  induction l with
  | nil => intro ai e; rfl
  | cons r rest ih =>
    intro ai e
    simp only [embedLoop]
    rw [ih]
    by_cases hA : ai = 0 ∨ ai = 1
    · simp [hA, bump_length]
    · by_cases hB : ai = cterm ∨ ai = cterm + 1 <;> simp [hA, hB, bump_length]

/-- Count, over an enumerated residue list starting at position `ai`, of the
positions satisfying a position-and-residue predicate. -/
def enumCountB (f : Nat → Fin 26 → Bool) : Nat → List (Fin 26) → Nat
  | _, [] => 0
  | ai, r :: rest => (if f ai r then 1 else 0) + enumCountB f (ai + 1) rest

theorem enumCountB_congr {f g : Nat → Fin 26 → Bool} (h : ∀ ai r, f ai r = g ai r) :
    ∀ (l : List (Fin 26)) (ai : Nat), enumCountB f ai l = enumCountB g ai l := by
  intro l
  induction l with
  | nil => intro ai; rfl
  | cons r rest ih => intro ai; simp only [enumCountB, h, ih]

theorem enumCountB_false :
    ∀ (l : List (Fin 26)) (ai : Nat), enumCountB (fun _ _ => false) ai l = 0 := by
  intro l
  induction l with
  | nil => intro ai; rfl
  | cons r rest ih => intro ai; simp [enumCountB, ih]


theorem enumCountB_cons (f : Nat → Fin 26 → Bool) (ai : Nat) (r : Fin 26)
    (rest : List (Fin 26)) :
    enumCountB f ai (r :: rest) = (if f ai r then 1 else 0) + enumCountB f (ai + 1) rest := rfl

theorem enumCountB_const (g : Fin 26 → Bool) :
    ∀ (l : List (Fin 26)) (ai : Nat), enumCountB (fun _ r => g r) ai l = l.countP g := by
  intro l
  induction l with
  | nil => intro ai; rfl
  | cons r rest ih =>
    intro ai
    rw [enumCountB_cons, ih, List.countP_cons]
    cases hg : g r <;> simp [hg, Nat.add_comm]

theorem enumCountB_shift (f : Nat → Fin 26 → Bool) :
    ∀ (l : List (Fin 26)) (ai : Nat),
      enumCountB f (ai + 1) l = enumCountB (fun k r => f (k + 1) r) ai l := by
  intro l
  induction l with
  | nil => intro ai; rfl
  | cons r rest ih => intro ai; rw [enumCountB_cons, enumCountB_cons, ih (ai + 1)]

theorem enumCountB_pos01_ge2 (g : Fin 26 → Bool) :
    ∀ (l : List (Fin 26)) (ai : Nat), 2 ≤ ai →
      enumCountB (fun k r => decide (k = 0 ∨ k = 0 + 1) && g r) ai l = 0 := by
  intro l
  induction l with
  | nil => intro ai _; rfl
  | cons r rest ih =>
    intro ai hai
    rw [enumCountB_cons, ih (ai + 1) (by omega)]
    have hd : decide (ai = 0 ∨ ai = 0 + 1) = false := by
      rw [decide_eq_false_iff_not]; omega
    rw [hd, Bool.false_and, if_neg Bool.false_ne_true]

/-- The positions `c` and `c + 1` of a list, counted from position 0, are
exactly `(l.drop c).take 2`. -/
theorem enumCountB_posPair (g : Fin 26 → Bool) :
    ∀ (l : List (Fin 26)) (c : Nat),
      enumCountB (fun ai r => decide (ai = c ∨ ai = c + 1) && g r) 0 l
        = ((l.drop c).take 2).countP g := by
  intro l
  induction l with
  | nil => intro c; cases c <;> rfl
  | cons r rest ih =>
    intro c
    cases c with
    | zero =>
      rw [enumCountB_cons]
      have hd0 : decide ((0 : Nat) = 0 ∨ (0 : Nat) = 0 + 1) = true := by decide
      rw [hd0, Bool.true_and]
      cases rest with
      | nil =>
        cases hg : g r <;> simp [hg, enumCountB, List.countP_cons]
      | cons r2 rest2 =>
        rw [enumCountB_cons]
        have hd1 : decide ((0 : Nat) + 1 = 0 ∨ (0 : Nat) + 1 = 0 + 1) = true := by decide
        rw [hd1, Bool.true_and, enumCountB_pos01_ge2 g rest2 (0 + 1 + 1) (by omega)]
        have ht : ((r :: r2 :: rest2).drop 0).take 2 = [r, r2] := rfl
        rw [ht]
        cases hg : g r <;> cases hg2 : g r2 <;>
          simp [hg, hg2, List.countP_cons]
    | succ c' =>
      rw [enumCountB_cons]
      have hd : decide ((0 : Nat) = c' + 1 ∨ (0 : Nat) = c' + 1 + 1) = false := by
        rw [decide_eq_false_iff_not]; omega
      rw [hd, Bool.false_and, if_neg Bool.false_ne_true, enumCountB_shift]
      have hcong : ∀ (k : Nat) (r' : Fin 26),
          (decide (k + 1 = c' + 1 ∨ k + 1 = c' + 1 + 1) && g r')
            = (decide (k = c' ∨ k = c' + 1) && g r') := by
        intro k r'
        have hiff : (k + 1 = c' + 1 ∨ k + 1 = c' + 1 + 1) ↔ (k = c' ∨ k = c' + 1) := by
          omega
        rw [decide_eq_decide.mpr hiff]
      rw [enumCountB_congr hcong rest 0, ih c', Nat.zero_add]
      rfl

/-- Whether the loop body of `embed` at position `ai`, residue `r`, increments
embedding index `j`.  The `match` arm order of the source is kept: the `0 | 1`
arm shadows the guarded cterm arm. -/
def stepHits (map : Fin 26 → Nat) (cterm j ai : Nat) (r : Fin 26) : Bool :=
  decide (map r = j) ||
  (decide (ai = 0 ∨ ai = 1) && decide (N_TERMINAL + map r = j)) ||
  (!decide (ai = 0 ∨ ai = 1) && decide (ai = cterm ∨ ai = cterm + 1) &&
    decide (C_TERMINAL + map r = j))

theorem getq_step (map : Fin 26 → Nat) (cterm ai j : Nat) (r : Fin 26) (e : List ℚ)
    (hm : ∀ r' : Fin 26, C_TERMINAL + map r' < e.length) (hj : j < e.length) :
    getq (if ai = 0 ∨ ai = 1 then bump (bump e (map r)) (N_TERMINAL + map r)
          else if ai = cterm ∨ ai = cterm + 1 then bump (bump e (map r)) (C_TERMINAL + map r)
          else bump e (map r)) j
      = getq e j + if stepHits map cterm j ai r then 1 else 0 := by
  have hNe := N_TERMINAL_eq
  have hCe := C_TERMINAL_eq
  have hmr := hm r
  by_cases hA : ai = 0 ∨ ai = 1
  · rw [if_pos hA]
    rw [getq_bump _ _ _ (by rw [bump_length]; exact hj), getq_bump _ _ _ hj]
    have hs : stepHits map cterm j ai r
        = (decide (map r = j) || decide (N_TERMINAL + map r = j)) := by
      rw [stepHits, decide_eq_true hA]
      simp
    rw [hs]
    by_cases hd1 : map r = j <;> by_cases hd2 : N_TERMINAL + map r = j
    · omega
    · rw [if_pos hd1, if_neg hd2, decide_eq_true hd1, decide_eq_false hd2]; norm_num
    · rw [if_neg hd1, if_pos hd2, decide_eq_false hd1, decide_eq_true hd2]; norm_num
    · rw [if_neg hd1, if_neg hd2, decide_eq_false hd1, decide_eq_false hd2]; norm_num
  · rw [if_neg hA]
    by_cases hB : ai = cterm ∨ ai = cterm + 1
    · rw [if_pos hB]
      rw [getq_bump _ _ _ (by rw [bump_length]; exact hj), getq_bump _ _ _ hj]
      have hs : stepHits map cterm j ai r
          = (decide (map r = j) || decide (C_TERMINAL + map r = j)) := by
        rw [stepHits, decide_eq_false hA, decide_eq_true hB]
        simp
      rw [hs]
      by_cases hd1 : map r = j <;> by_cases hd3 : C_TERMINAL + map r = j
      · omega
      · rw [if_pos hd1, if_neg hd3, decide_eq_true hd1, decide_eq_false hd3]; norm_num
      · rw [if_neg hd1, if_pos hd3, decide_eq_false hd1, decide_eq_true hd3]; norm_num
      · rw [if_neg hd1, if_neg hd3, decide_eq_false hd1, decide_eq_false hd3]; norm_num
    · rw [if_neg hB]
      rw [getq_bump _ _ _ hj]
      have hs : stepHits map cterm j ai r = decide (map r = j) := by
        rw [stepHits, decide_eq_false hA, decide_eq_false hB]
        simp
      rw [hs]
      by_cases hd1 : map r = j
      · rw [if_pos hd1, decide_eq_true hd1]; norm_num
      · rw [if_neg hd1, decide_eq_false hd1]; norm_num

/-- Pointwise value of the embedding loop: starting vector plus the number of
positions whose loop body hits index `j`. -/
theorem embedLoop_getq (map : Fin 26 → Nat) (cterm j : Nat) :
    ∀ (l : List (Fin 26)) (ai : Nat) (e : List ℚ),
      (∀ r' : Fin 26, C_TERMINAL + map r' < e.length) → j < e.length →
      getq (embedLoop map cterm ai l e) j
        = getq e j + (enumCountB (stepHits map cterm j) ai l : ℚ) := by
  intro l
  induction l with
  | nil => intro ai e _ _; simp [embedLoop, enumCountB]
  | cons r rest ih =>
    intro ai e hm hj
    rw [show embedLoop map cterm ai (r :: rest) e
        = embedLoop map cterm (ai + 1) rest
            (if ai = 0 ∨ ai = 1 then bump (bump e (map r)) (N_TERMINAL + map r)
             else if ai = cterm ∨ ai = cterm + 1 then
               bump (bump e (map r)) (C_TERMINAL + map r)
             else bump e (map r)) from rfl]
    have hlen : (if ai = 0 ∨ ai = 1 then bump (bump e (map r)) (N_TERMINAL + map r)
             else if ai = cterm ∨ ai = cterm + 1 then
               bump (bump e (map r)) (C_TERMINAL + map r)
             else bump e (map r)).length = e.length := by
      by_cases hA : ai = 0 ∨ ai = 1
      · simp [hA, bump_length]
      · by_cases hB : ai = cterm ∨ ai = cterm + 1 <;> simp [hA, hB, bump_length]
    rw [ih (ai + 1) _ (fun r' => by rw [hlen]; exact hm r') (by rw [hlen]; exact hj)]
    rw [getq_step map cterm ai j r e hm hj]
    rw [enumCountB_cons]
    push_cast
    ring

theorem countP_eq_count (a : Fin 26) (ha : a ∈ VALID_AA) :
    ∀ (l : List (Fin 26)), (∀ x ∈ l, x ∈ VALID_AA) →
      l.countP (fun r => decide (aaIndexMap r = aaIndexMap a)) = l.count a := by
  intro l
  induction l with
  | nil => intro _; rfl
  | cons r rest ih =>
    intro hval
    have hr : r ∈ VALID_AA := hval r (by simp)
    have ih' := ih (fun x hx => hval x (by simp [hx]))
    by_cases he : r = a
    · subst he; simp [List.countP_cons, List.count_cons, ih']
    · have hne : ¬(aaIndexMap r = aaIndexMap a) := fun h => he (aaIndexMap_inj r a hr ha h)
      simp [List.countP_cons, List.count_cons, ih', he, hne]

theorem embed_length (ln1p : ℚ → ℚ) (p : Peptide) (map : Fin 26 → Nat) :
    (RetentionModel.embed ln1p p map).length = FEATURES := by
  simp only [RetentionModel.embed]
  rw [List.length_set, List.length_set, List.length_set, embedLoop_length,
    List.length_replicate]

/-- Below index 60, the embedding is exactly the hit count of the loop. -/
theorem embed_getq_lt60 (ln1p : ℚ → ℚ) (p : Peptide) (j : Nat) (hj : j < 60) :
    getq (RetentionModel.embed ln1p p aaIndexMap) j
      = (enumCountB (stepHits aaIndexMap (p.sequence.length - 3) j) 0 p.sequence : ℚ) := by
  simp only [RetentionModel.embed]
  rw [getq_set, if_neg (fun hc => absurd hc.1 (by rw [INTERCEPT_eq] at hc; omega))]
  rw [getq_set, if_neg (fun hc => absurd hc.1 (by rw [PEPTIDE_MASS_eq] at hc; omega))]
  rw [getq_set, if_neg (fun hc => absurd hc.1 (by rw [PEPTIDE_LEN_eq] at hc; omega))]
  rw [embedLoop_getq aaIndexMap (p.sequence.length - 3) j p.sequence 0 _
    (fun r' => by
      have := aaIndexMap_lt r'
      rw [List.length_replicate, FEATURES_eq, C_TERMINAL_eq]; omega)
    (by rw [List.length_replicate, FEATURES_eq]; omega)]
  rw [getq_replicate, zero_add]

/-- Index `aaIndexMap a` of the embedding counts residue `a` over the whole
sequence (for valid-residue peptides). -/
theorem embed_count_all (ln1p : ℚ → ℚ) (p : Peptide) (a : Fin 26) (ha : a ∈ VALID_AA)
    (hval : ∀ x ∈ p.sequence, x ∈ VALID_AA) :
    getq (RetentionModel.embed ln1p p aaIndexMap) (aaIndexMap a)
      = (p.sequence.count a : ℚ) := by
  have hja : aaIndexMap a < 20 := aaIndexMap_lt a
  rw [embed_getq_lt60 ln1p p _ (by omega)]
  rw [enumCountB_congr (g := fun _ r => decide (aaIndexMap r = aaIndexMap a))
    (fun ai r => by
      dsimp only
      have h2 : ¬(N_TERMINAL + aaIndexMap r = aaIndexMap a) := by
        rw [N_TERMINAL_eq]; omega
      have h3 : ¬(C_TERMINAL + aaIndexMap r = aaIndexMap a) := by
        rw [C_TERMINAL_eq]; omega
      rw [stepHits, decide_eq_false h2, decide_eq_false h3]
      simp)]
  rw [enumCountB_const, countP_eq_count a ha p.sequence hval]

/-- Index `N_TERMINAL + aaIndexMap a` counts residue `a` among the first two
positions. -/
theorem embed_count_nterm (ln1p : ℚ → ℚ) (p : Peptide) (a : Fin 26) (ha : a ∈ VALID_AA)
    (hval : ∀ x ∈ p.sequence, x ∈ VALID_AA) :
    getq (RetentionModel.embed ln1p p aaIndexMap) (N_TERMINAL + aaIndexMap a)
      = ((p.sequence.take 2).count a : ℚ) := by
  have hja : aaIndexMap a < 20 := aaIndexMap_lt a
  rw [N_TERMINAL_eq]
  rw [embed_getq_lt60 ln1p p _ (by omega)]
  rw [enumCountB_congr
    (g := fun ai r => decide (ai = 0 ∨ ai = 0 + 1) && decide (aaIndexMap r = aaIndexMap a))
    (fun ai r => by
      dsimp only
      have hr := aaIndexMap_lt r
      have h1 : ¬(aaIndexMap r = 20 + aaIndexMap a) := by omega
      have h3 : ¬(C_TERMINAL + aaIndexMap r = 20 + aaIndexMap a) := by
        rw [C_TERMINAL_eq]; omega
      rw [stepHits, decide_eq_false h1, decide_eq_false h3, N_TERMINAL_eq]
      by_cases hA : ai = 0 ∨ ai = 1
      · rw [decide_eq_true hA]
        by_cases hv : aaIndexMap r = aaIndexMap a
        · have hv2 : 20 + aaIndexMap r = 20 + aaIndexMap a := by omega
          rw [decide_eq_true hv, decide_eq_true hv2]
          simp
        · have hv2 : ¬(20 + aaIndexMap r = 20 + aaIndexMap a) := by omega
          rw [decide_eq_false hv, decide_eq_false hv2]
          simp
      · rw [decide_eq_false hA]
        simp)]
  rw [enumCountB_posPair, List.drop_zero,
    countP_eq_count a ha (p.sequence.take 2) (fun x hx => hval x (List.take_subset 2 _ hx))]

/-- For sequences of length at least 5, index `C_TERMINAL + aaIndexMap a` counts
residue `a` among positions `length − 3` and `length − 2`. -/
theorem embed_count_cterm (ln1p : ℚ → ℚ) (p : Peptide) (a : Fin 26) (ha : a ∈ VALID_AA)
    (hval : ∀ x ∈ p.sequence, x ∈ VALID_AA) (hlen : 5 ≤ p.sequence.length) :
    getq (RetentionModel.embed ln1p p aaIndexMap) (C_TERMINAL + aaIndexMap a)
      = (((p.sequence.drop (p.sequence.length - 3)).take 2).count a : ℚ) := by
  have hja : aaIndexMap a < 20 := aaIndexMap_lt a
  have hct : 2 ≤ p.sequence.length - 3 := by omega
  rw [C_TERMINAL_eq]
  rw [embed_getq_lt60 ln1p p _ (by omega)]
  rw [enumCountB_congr
    (g := fun ai r => decide (ai = p.sequence.length - 3 ∨ ai = p.sequence.length - 3 + 1)
      && decide (aaIndexMap r = aaIndexMap a))
    (fun ai r => by
      dsimp only
      have hr := aaIndexMap_lt r
      have h1 : ¬(aaIndexMap r = 40 + aaIndexMap a) := by omega
      have h2 : ¬(N_TERMINAL + aaIndexMap r = 40 + aaIndexMap a) := by
        rw [N_TERMINAL_eq]; omega
      rw [stepHits, decide_eq_false h1, decide_eq_false h2, C_TERMINAL_eq]
      by_cases hA : ai = 0 ∨ ai = 1
      · have hB : ¬(ai = p.sequence.length - 3 ∨ ai = p.sequence.length - 3 + 1) := by
          omega
        rw [decide_eq_true hA, decide_eq_false hB]
        simp
      · rw [decide_eq_false hA]
        by_cases hB : ai = p.sequence.length - 3 ∨ ai = p.sequence.length - 3 + 1
        · rw [decide_eq_true hB]
          by_cases hv : aaIndexMap r = aaIndexMap a
          · have hv2 : 40 + aaIndexMap r = 40 + aaIndexMap a := by omega
            rw [decide_eq_true hv, decide_eq_true hv2]
            simp
          · have hv2 : ¬(40 + aaIndexMap r = 40 + aaIndexMap a) := by omega
            rw [decide_eq_false hv, decide_eq_false hv2]
            simp
        · rw [decide_eq_false hB]
          simp)]
  rw [enumCountB_posPair,
    countP_eq_count a ha _ (fun x hx =>
      hval x (List.drop_subset _ _ (List.take_subset 2 _ hx)))]

/-- For sequences of length at most 3 the C-terminal block receives no counts:
`cterm` saturates to 0, and positions 0 and 1 are captured by the first match
arm (`0 | 1`), which shadows the cterm-guarded arm. -/
theorem embed_cterm_zero_short (ln1p : ℚ → ℚ) (p : Peptide)
    (hlen : p.sequence.length ≤ 3) (j : Nat) (h40 : 40 ≤ j) (h60 : j < 60) :
    getq (RetentionModel.embed ln1p p aaIndexMap) j = 0 := by
  have hct : p.sequence.length - 3 = 0 := by omega
  rw [embed_getq_lt60 ln1p p _ (by omega)]
  rw [enumCountB_congr (g := fun _ _ => false)
    (fun ai r => by
      dsimp only
      have hr := aaIndexMap_lt r
      have h1 : ¬(aaIndexMap r = j) := by omega
      have h2 : ¬(N_TERMINAL + aaIndexMap r = j) := by
        rw [N_TERMINAL_eq]; omega
      rw [stepHits, decide_eq_false h1, decide_eq_false h2, hct]
      by_cases hA : ai = 0 ∨ ai = 1
      · rw [decide_eq_true hA]
        simp
      · rw [decide_eq_false hA]
        simp)]
  rw [enumCountB_false]
  norm_num

theorem embed_peplen (ln1p : ℚ → ℚ) (p : Peptide) (map : Fin 26 → Nat) :
    getq (RetentionModel.embed ln1p p map) 60 = (p.sequence.length : ℚ) := by
  simp only [RetentionModel.embed]
  have hl : (embedLoop map (p.sequence.length - 3) 0 p.sequence
      (List.replicate FEATURES 0)).length = 63 := by
    rw [embedLoop_length, List.length_replicate, FEATURES_eq]
  rw [getq_set, if_neg (fun hc => absurd hc.1 (by rw [INTERCEPT_eq] at hc; omega))]
  rw [getq_set, if_neg (fun hc => absurd hc.1 (by rw [PEPTIDE_MASS_eq] at hc; omega))]
  rw [getq_set, if_pos (by rw [PEPTIDE_LEN_eq, hl]; omega)]

theorem embed_pepmass (ln1p : ℚ → ℚ) (p : Peptide) (map : Fin 26 → Nat) :
    getq (RetentionModel.embed ln1p p map) 61 = ln1p p.monoisotopic := by
  simp only [RetentionModel.embed]
  have hl : (embedLoop map (p.sequence.length - 3) 0 p.sequence
      (List.replicate FEATURES 0)).length = 63 := by
    rw [embedLoop_length, List.length_replicate, FEATURES_eq]
  rw [getq_set, if_neg (fun hc => absurd hc.1 (by rw [INTERCEPT_eq] at hc; omega))]
  rw [getq_set, if_pos (by rw [PEPTIDE_MASS_eq, List.length_set, hl]; omega)]

theorem embed_intercept (ln1p : ℚ → ℚ) (p : Peptide) (map : Fin 26 → Nat) :
    getq (RetentionModel.embed ln1p p map) 62 = 1 := by
  simp only [RetentionModel.embed]
  have hl : (embedLoop map (p.sequence.length - 3) 0 p.sequence
      (List.replicate FEATURES 0)).length = 63 := by
    rw [embedLoop_length, List.length_replicate, FEATURES_eq]
  rw [getq_set, if_pos (by
    rw [INTERCEPT_eq, List.length_set, List.length_set, hl]; omega)]

/-- Pivot threshold of the Gauss solver (spec §4.5: "fails if pivot magnitude
< 1e-12"). -/
def PIVOT_EPS : ℚ := 1 / 10 ^ 12

/-- First row index maximizing the magnitude of a column entry (partial
pivoting; earlier rows win ties). -/
def argmaxAbs {n : Nat} (f : Fin (n + 1) → ℚ) : Fin (n + 1) :=
  (List.finRange (n + 1)).foldl (fun best i => if |f best| < |f i| then i else best) 0

/-- Exchange two rows (of a matrix or of a vector). -/
def rowSwap {n : Nat} {α : Type} (v : Fin n → α) (r s : Fin n) : Fin n → α :=
  fun i => v (Equiv.swap r s i)

/-- One elimination step: the Schur complement after eliminating column 0 with
the (already swapped-to-front) pivot row. -/
def subMatrix {n : Nat} (A : Fin (n + 1) → Fin (n + 1) → ℚ) : Fin n → Fin n → ℚ :=
  fun i j => A i.succ j.succ - A i.succ 0 / A 0 0 * A 0 j.succ

/-- The right-hand side after one elimination step. -/
def subVec {n : Nat} (A : Fin (n + 1) → Fin (n + 1) → ℚ) (b : Fin (n + 1) → ℚ) :
    Fin n → ℚ :=
  fun i => b i.succ - A i.succ 0 / A 0 0 * b 0

/-- Modelled from the spec: `Gauss::solve` — "normal equations … solved by
Gaussian elimination with partial pivoting; fails if pivot magnitude < 1e-12"
(spec §4.5); `crates/sage/src/ml/gauss.rs` is not among the sources.  The
elimination is phrased recursively on the dimension: pick the row with the
largest magnitude in the current leading column, fail if it is below
`PIVOT_EPS`, swap it to the front, eliminate the column, recurse, then back
substitute. -/
def gaussSolve : (n : Nat) → (Fin n → Fin n → ℚ) → (Fin n → ℚ) → Option (Fin n → ℚ)
  | 0, _, _ => some (fun i => i.elim0)
  | n + 1, A, b =>
    let r := argmaxAbs (fun i => A i 0)
    if |A r 0| < PIVOT_EPS then none
    else
      let A1 := fun i => rowSwap A 0 r i
      let b1 := rowSwap b 0 r
      match gaussSolve n (subMatrix A1) (subVec A1 b1) with
      | none => none
      | some x =>
        let x0 := (b1 0 - ∑ j, A1 0 j.succ * x j) / A1 0 0
        some (Fin.cases x0 x)

/-- The sequence of pivot magnitudes chosen by the elimination (continuing past
a failing pivot, so that the whole trace is defined). -/
def pivotsTrace : (n : Nat) → (Fin n → Fin n → ℚ) → List ℚ
  | 0, _ => []
  | n + 1, A =>
    let r := argmaxAbs (fun i => A i 0)
    let A1 := fun i => rowSwap A 0 r i
    |A r 0| :: pivotsTrace n (subMatrix A1)

theorem argmaxAbs_of_first_max {n : Nat} (f : Fin (n + 1) → ℚ)
    (h : ∀ i, |f i| ≤ |f 0|) : argmaxAbs f = 0 := by
  have key : ∀ (l : List (Fin (n + 1))),
      l.foldl (fun best i => if |f best| < |f i| then i else best) 0 = 0 := by
    intro l
    induction l with
    | nil => rfl
    | cons a t ih =>
      simp only [List.foldl_cons]
      rw [if_neg (not_lt.mpr (h a))]
      exact ih
  exact key _

/-- `gaussSolve` fails exactly when some pivot in the trace is below the
threshold. -/
theorem gaussSolve_none_iff :
    ∀ (n : Nat) (A : Fin n → Fin n → ℚ) (b : Fin n → ℚ),
      gaussSolve n A b = none ↔ ∃ p ∈ pivotsTrace n A, p < PIVOT_EPS := by
  intro n
  induction n with
  | zero =>
    intro A b
    constructor
    · intro h; exact absurd h (by simp [gaussSolve])
    · intro ⟨p, hp, _⟩; exact absurd hp (by simp [pivotsTrace])
  | succ m ih =>
    intro A b
    by_cases hpiv : |A (argmaxAbs (fun i => A i 0)) 0| < PIVOT_EPS
    · constructor
      · intro _
        exact ⟨|A (argmaxAbs (fun i => A i 0)) 0|, by simp [pivotsTrace], hpiv⟩
      · intro _
        simp only [gaussSolve]
        rw [if_pos hpiv]
    · have hng : gaussSolve (m + 1) A b
          = match gaussSolve m (subMatrix (fun i => rowSwap A 0 (argmaxAbs (fun i => A i 0)) i))
              (subVec (fun i => rowSwap A 0 (argmaxAbs (fun i => A i 0)) i)
                (rowSwap b 0 (argmaxAbs (fun i => A i 0)))) with
            | none => none
            | some x => some (Fin.cases
                ((rowSwap b 0 (argmaxAbs (fun i => A i 0)) 0
                  - ∑ j, rowSwap A 0 (argmaxAbs (fun i => A i 0)) 0 j.succ * x j)
                  / rowSwap A 0 (argmaxAbs (fun i => A i 0)) 0 0) x) := by
        simp only [gaussSolve]
        rw [if_neg hpiv]
      have htr : pivotsTrace (m + 1) A
          = |A (argmaxAbs (fun i => A i 0)) 0|
            :: pivotsTrace m (subMatrix (fun i => rowSwap A 0 (argmaxAbs (fun i => A i 0)) i)) := by
        simp only [pivotsTrace]
      rw [hng, htr]
      cases hrec : gaussSolve m
          (subMatrix (fun i => rowSwap A 0 (argmaxAbs (fun i => A i 0)) i))
          (subVec (fun i => rowSwap A 0 (argmaxAbs (fun i => A i 0)) i)
            (rowSwap b 0 (argmaxAbs (fun i => A i 0)))) with
      | none =>
        have hin := (ih _ _).mp hrec
        simp only [List.mem_cons]
        constructor
        · intro _
          obtain ⟨p, hp, hlt⟩ := hin
          exact ⟨p, Or.inr hp, hlt⟩
        · intro _; trivial
      | some x =>
        have hns : gaussSolve m
            (subMatrix (fun i => rowSwap A 0 (argmaxAbs (fun i => A i 0)) i))
            (subVec (fun i => rowSwap A 0 (argmaxAbs (fun i => A i 0)) i)
              (rowSwap b 0 (argmaxAbs (fun i => A i 0)))) ≠ none := by
          rw [hrec]; exact Option.some_ne_none x
        have hnotrec := fun hmem => hns ((ih _ _).mpr hmem)
        simp only [List.mem_cons]
        constructor
        · intro hcontra; exact absurd hcontra (Option.some_ne_none _)
        · intro ⟨p, hp, hlt⟩
          cases hp with
          | inl he => exact absurd (he ▸ hlt) hpiv
          | inr hm => exact absurd ⟨p, hm, hlt⟩ hnotrec

/-- Diagonal matrix with constant diagonal. -/
def diagQ (n : Nat) (d : ℚ) : Fin n → Fin n → ℚ := fun i j => if i = j then d else 0

theorem rowSwap_same_fun {n : Nat} {α : Type} (v : Fin n → α) (r : Fin n) :
    rowSwap v r r = v := by
  funext i
  simp [rowSwap, Equiv.swap_self]

/-- Gaussian elimination on a diagonal system with zero right-hand side
succeeds (all pivots equal the diagonal) and returns the zero vector. -/
theorem gaussSolve_diag_zero :
    ∀ (n : Nat) (d : ℚ), PIVOT_EPS ≤ |d| →
      gaussSolve n (diagQ n d) (fun _ => 0) = some (fun _ => 0) := by
  intro n
  induction n with
  | zero =>
    intro d _
    simp only [gaussSolve]
    congr 1
    funext i
    exact i.elim0
  | succ m ih =>
    intro d hd
    have hcol : ∀ i : Fin (m + 1), |diagQ (m + 1) d i 0| ≤ |diagQ (m + 1) d 0 0| := by
      intro i
      by_cases h : i = (0 : Fin (m + 1))
      · subst h; exact le_refl _
      · have hz : diagQ (m + 1) d i 0 = 0 := by simp [diagQ, h]
        rw [hz]
        simp [diagQ]
    have hr : argmaxAbs (fun i => diagQ (m + 1) d i 0) = 0 :=
      argmaxAbs_of_first_max _ hcol
    have hsub : subMatrix (diagQ (m + 1) d) = diagQ m d := by
      funext i j
      simp only [subMatrix]
      have h1 : diagQ (m + 1) d i.succ 0 = 0 := by
        simp [diagQ, Fin.succ_ne_zero]
      rw [h1, zero_div, zero_mul, sub_zero]
      simp [diagQ, Fin.succ_inj]
    have hsubv : subVec (diagQ (m + 1) d) (fun _ : Fin (m + 1) => (0 : ℚ))
        = (fun _ : Fin m => (0 : ℚ)) := by
      funext i
      simp [subVec]
    have hA00 : |diagQ (m + 1) d 0 0| = |d| := by simp [diagQ]
    simp only [gaussSolve, hr, rowSwap_same_fun]
    rw [hA00, if_neg (not_lt.mpr hd), hsub, hsubv, ih d hd]
    simp only []
    congr 1
    funext i
    cases i using Fin.cases with
    | zero =>
      rw [Fin.cases_zero]
      simp [diagQ]
    | succ k =>
      rw [Fin.cases_succ]

/-- A PSM feature record — the fields read or written by the two source files.
`label` is the target/decoy label, `spectrum_q` the spectrum-level q-value. -/
structure Feature where
  peptide_idx : Nat
  scannr : Nat
  label : Int
  poisson : ℚ
  discriminant_score : ℚ
  spectrum_q : ℚ
  aligned_rt : ℚ
  predicted_rt : ℚ
  delta_rt_model : ℚ
  specid : Nat
deriving DecidableEq

/-- Modelled from the spec: the peptide table addressed by dense integer
handles (spec §4.1, §9: "peptides are stored in a stable vector and addressed
by handle (a dense integer)"); the `IndexedDatabase` indexing implementation is
not among the sources, so `db[idx]` is modelled as function application. -/
def IndexedDatabase : Type := Nat → Peptide

/-- The fitted model: coefficient vector, residue map, and R². -/
structure RetentionModel where
  beta : Fin FEATURES → ℚ
  map : Fin 26 → Nat
  r2 : ℚ

/-- The training-set filter of `fit` (lines 71 and 82):
`feat.label == 1 && feat.spectrum_q <= 0.01`. -/
def trainFilter (f : Feature) : Bool :=
  decide (f.label = 1) && decide (f.spectrum_q ≤ 1 / 100)

/-- The design matrix of `fit` (lines 80–87): one embedded row per training
PSM, in training-set order. -/
def trainingX (ln1p : ℚ → ℚ) (db : IndexedDatabase) (training_set : List Feature) :
    List (List ℚ) :=
  (training_set.filter trainFilter).map
    (fun f => RetentionModel.embed ln1p (db f.peptide_idx) aaIndexMap)

/-- Entry `(i, j)` of `XᵀX` for a row-major list of rows `X`. -/
def gram (X : List (List ℚ)) (i j : Fin FEATURES) : ℚ :=
  (X.map (fun row => getq row i * getq row j)).sum

/-- `XᵀX` with the ridge constant `0.1` added to every diagonal entry
(`fit` lines 89–95: `cov[(i, i)] += 0.1`). -/
def ridgeCov (X : List (List ℚ)) : Fin FEATURES → Fin FEATURES → ℚ :=
  fun i j => gram X i j + if i = j then 1 / 10 else 0

/-- The right-hand side `b = Xᵀ·rt` of the normal equations (line 91). -/
def fitRhs (X : List (List ℚ)) (rt : List ℚ) : Fin FEATURES → ℚ :=
  fun i => ((X.zip rt).map (fun pr => getq pr.1 i * pr.2)).sum

/-- The post-solve part of `fit` (lines 99–112): R² computation and model
assembly. -/
def fitFinish (rt : List ℚ) (X : List (List ℚ)) (beta : Fin FEATURES → ℚ) :
    RetentionModel :=
  let rt_mean := rt.sum / (rt.length : ℚ)
  let rt_var := (rt.map (fun x => (x - rt_mean) ^ 2)).sum
  let predicted := X.map (fun row => ∑ j : Fin FEATURES, getq row j.val * beta j)
  let sse := ((predicted.zip rt).map (fun pr => (pr.1 - pr.2) ^ 2)).sum
  ⟨beta, aaIndexMap, 1 - sse / rt_var⟩

/-- `RetentionModel::fit` (lines 62–113): filter the training set, embed it,
form the ridge-regularized normal equations, solve them by Gaussian
elimination, and report `R² = 1 − SSE/SST`.  Note: the function performs no
training-set-size check and no R² check — it returns `Some` whenever the
solver succeeds. -/
def RetentionModel.fit (ln1p : ℚ → ℚ) (db : IndexedDatabase)
    (training_set : List Feature) : Option RetentionModel :=
  let rt : List ℚ := (training_set.filter trainFilter).map (fun f => f.aligned_rt)
  let X := trainingX ln1p db training_set
  (gaussSolve FEATURES (ridgeCov X) (fitRhs X rt)).map (fitFinish rt X)

/-- `RetentionModel::predict_peptide` (lines 116–121): dot product of the
embedding with the coefficients. -/
def RetentionModel.predict_peptide (ln1p : ℚ → ℚ) (m : RetentionModel)
    (db : IndexedDatabase) (psm : Feature) : ℚ :=
  ∑ j : Fin FEATURES,
    getq (RetentionModel.embed ln1p (db psm.peptide_idx) m.map) j.val * m.beta j

/-- Rust `f64::clamp(lo, hi)`. -/
def clampQ (x lo hi : ℚ) : ℚ := if x < lo then lo else if hi < x then hi else x

/-- The per-feature update of `predict` (lines 17–23). -/
def applyModel (ln1p : ℚ → ℚ) (db : IndexedDatabase) (lr : RetentionModel)
    (f : Feature) : Feature :=
  let bounded := clampQ (lr.predict_peptide ln1p db f) 0 1
  { f with predicted_rt := bounded, delta_rt_model := |f.aligned_rt - bounded| }

/-- The free function `predict` (lines 14–25): fit on the features themselves,
then update every feature; the in-place mutation is modelled by returning the
updated list (`none` when `fit` fails, in which case the features are
untouched). -/
def predict (ln1p : ℚ → ℚ) (db : IndexedDatabase) (features : List Feature) :
    Option (List Feature) :=
  (RetentionModel.fit ln1p db features).map
    (fun lr => features.map (applyModel ln1p db lr))

theorem trainFilter_iff (f : Feature) :
    trainFilter f = true ↔ (f.label = 1 ∧ f.spectrum_q ≤ 1 / 100) := by
  simp [trainFilter]

/-- With an empty training set the normal equations degenerate to
`(0.1·I)·β = 0`, which the solver still solves: `fit` returns a model. -/
theorem fit_of_empty_training (ln1p : ℚ → ℚ) (db : IndexedDatabase)
    (ts : List Feature) (h : ts.filter trainFilter = []) :
    RetentionModel.fit ln1p db ts = some ⟨fun _ => 0, aaIndexMap, 1⟩ := by
  have hX : trainingX ln1p db ts = [] := by rw [trainingX, h]; rfl
  have hrt : (ts.filter trainFilter).map (fun f => f.aligned_rt) = ([] : List ℚ) := by
    rw [h]; rfl
  have hcov : ridgeCov ([] : List (List ℚ)) = diagQ FEATURES (1 / 10) := by
    funext i j
    simp [ridgeCov, gram, diagQ]
  have hrhs : fitRhs ([] : List (List ℚ)) ([] : List ℚ) = (fun _ => 0) := by
    funext i
    simp [fitRhs]
  have heps : PIVOT_EPS ≤ |(1 : ℚ) / 10| := by
    rw [PIVOT_EPS, abs_of_pos (by norm_num : (0 : ℚ) < 1 / 10)]
    norm_num
  have hfin : fitFinish ([] : List ℚ) ([] : List (List ℚ)) (fun _ => 0)
      = ⟨fun _ => 0, aaIndexMap, 1⟩ := by
    simp [fitFinish]
  simp only [RetentionModel.fit]
  rw [hrt, hX, hcov, hrhs, gaussSolve_diag_zero FEATURES (1 / 10) heps,
    Option.map_some', hfin]

/-- `fit` fails exactly when the solver does. -/
theorem fit_none_iff_gauss (ln1p : ℚ → ℚ) (db : IndexedDatabase)
    (ts : List Feature) :
    RetentionModel.fit ln1p db ts = none
      ↔ gaussSolve FEATURES (ridgeCov (trainingX ln1p db ts))
          (fitRhs (trainingX ln1p db ts)
            ((ts.filter trainFilter).map (fun f => f.aligned_rt))) = none := by
  simp only [RetentionModel.fit]
  exact Option.map_eq_none'

/-- `fit` depends only on the filtered training subset. -/
theorem fit_filter_only (ln1p : ℚ → ℚ) (db : IndexedDatabase) (ts : List Feature) :
    RetentionModel.fit ln1p db ts
      = RetentionModel.fit ln1p db (ts.filter trainFilter) := by
  have hff : (ts.filter trainFilter).filter trainFilter = ts.filter trainFilter := by
    simp [List.filter_filter, Bool.and_self]
  simp only [RetentionModel.fit, trainingX, hff]

theorem clampQ_mem (x : ℚ) : 0 ≤ clampQ x 0 1 ∧ clampQ x 0 1 ≤ 1 := by
  rw [clampQ]
  by_cases h1 : x < 0
  · rw [if_pos h1]
    norm_num
  · rw [if_neg h1]
    by_cases h2 : (1 : ℚ) < x
    · rw [if_pos h2]
      norm_num
    · rw [if_neg h2]
      exact ⟨not_lt.mp h1, not_lt.mp h2⟩

theorem predict_of_fit (ln1p : ℚ → ℚ) (db : IndexedDatabase) (feats : List Feature)
    (lr : RetentionModel) (h : RetentionModel.fit ln1p db feats = some lr) :
    predict ln1p db feats = some (feats.map (applyModel ln1p db lr)) := by
  rw [predict, h, Option.map_some']

/-- Precursor or fragment tolerance (`sage::mass::Tolerance`; spec §6:
`{ppm:[lo,hi]}` or `{da:[lo,hi]}` tagged variant). -/
inductive Tolerance
  | ppm (lo hi : ℚ)
  | da (lo hi : ℚ)
deriving DecidableEq

/-- The resolved search parameters (the `Search` fields the modelled paths
read). -/
structure Search where
  precursor_tol : Tolerance
  isotope_errors : Int × Int
  chimera : Bool
  report_psms : Nat
  min_peaks : Nat
  max_peaks : Nat
  process_files_parallel : Bool
deriving DecidableEq

/-- The effective precursor tolerance computed in `main` (lines 280–295).
Widening is gated on `search.chimera && search.isotope_errors.1 < 1`; a ppm
window is replaced outright by ±1.25 Da; a Da window `(lo, hi)` becomes
`(min lo −1.25, max hi 1.25)`. -/
def effectivePrecursorTol (s : Search) : Tolerance :=
  if s.chimera = true ∧ s.isotope_errors.2 < 1 then
    match s.precursor_tol with
    | .ppm _ _ => .da (-(5 / 4)) (5 / 4)
    | .da lo hi => .da (min lo (-(5 / 4))) (max hi (5 / 4))
  else s.precursor_tol

/-- The (precursor tolerance, report_psms) pair actually used for scoring:
`Scorer::new` receives the effective tolerance (lines 301–308) while
`scorer.score` is called with the unmodified `search.report_psms` (lines 104
and 217); the warning at lines 297–299 modifies nothing. -/
def scoringParams (s : Search) : Tolerance × Nat :=
  (effectivePrecursorTol s, s.report_psms)

/-- The exit behaviour of `main` (lines 256–349) with the fallible steps
abstracted to booleans: configuration load (`Search::load(path)?`), database
build (`build()?`), per-file outcomes (only logged: lines 325–342), and the
`results.json` serialization and write (lines 344–347).  Returns the process
exit code: 0 for `Ok(())`, 1 for an early `Err`.  The per-file `failures`
counter is incremented and never read, as in the source. -/
def mainExitCode (configOk dbOk : Bool) (fileOk : List Bool) (summaryOk : Bool) :
    Nat :=
  if configOk = false then 1
  else if dbOk = false then 1
  else
    let _failures := fileOk.countP (fun b => !b)
    if summaryOk = false then 1 else 0

/-- A spectrum as the driver handles it: peak list, MS level, scan id. -/
structure Spectrum where
  mz : List ℚ
  level : Nat
  scan : Nat
deriving DecidableEq

/-- The external collaborators of the per-file routines, abstracted (spec §6
and §2: the spectrum processor, the scorer, and the LDA rescoring pass, none
of which is among the sources).  `ldaScore` returns `none` on its fallback
path. -/
structure Env where
  process : Spectrum → Spectrum
  score : Spectrum → Nat → List Feature
  ldaScore : List Feature → Option (List Feature)

/-- Modelled from the spec: the forward sweep of `assign_q_values` (spec §4.6:
"sweep accumulating target and decoy counts, compute FDR = (#decoys + 1) /
#targets at each position"); `assign_q_values` is not among the sources. -/
def sweepQ : Nat → Nat → List Feature → List (Feature × ℚ)
  | _, _, [] => []
  | d, t, f :: rest =>
    let d1 := if f.label = -1 then d + 1 else d
    let t1 := if f.label = 1 then t + 1 else t
    (f, ((d1 : ℚ) + 1) / (t1 : ℚ)) :: sweepQ d1 t1 rest

/-- Modelled from the spec: the bottom-up monotonization of `assign_q_values`
("monotonize q from the bottom up so q is non-increasing with rank").  Returns
the updated list and the running minimum from the bottom. -/
def monotonizeQ : List (Feature × ℚ) → List Feature × Option ℚ
  | [] => ([], none)
  | (f, q) :: rest =>
    let pr := monotonizeQ rest
    let q1 := match pr.2 with
      | none => q
      | some mq => min q mq
    ({ f with spectrum_q := q1 } :: pr.1, some q1)

/-- Modelled from the spec: `assign_q_values` over an already-sorted PSM list;
mutates only `spectrum_q`. -/
def assignQValues (l : List Feature) : List Feature := (monotonizeQ (sweepQ 0 0 l)).1

/-- The `for (idx, score) in scores.into_iter().enumerate()` write loop
(lines 131–134 and 241–244): the i-th written row receives `specid = i`. -/
def enumSpecidFrom (k : Nat) : List Feature → List Feature
  | [] => []
  | f :: rest => { f with specid := k } :: enumSpecidFrom (k + 1) rest

/-- Rows as written to the TSV, with `specid` assigned monotonically from 0. -/
def enumerateSpecid (l : List Feature) : List Feature := enumSpecidFrom 0 l

/-- Pre-sort PSMs of the files-parallel routine (`process_mzml_file`, lines
100–105): keep raw spectra with at least `min_peaks` peaks, process each, then
score each with `report_psms`. -/
def parPsms (env : Env) (s : Search) (spectra : List Spectrum) : List Feature :=
  ((spectra.filter (fun sp => s.min_peaks ≤ sp.mz.length)).map env.process).flatMap
    (fun sp => env.score sp s.report_psms)

/-- The scoring loop of the files-sequential routine (`process_mzml_file_sps`,
lines 193–221) over already-processed spectra: the MS3 branch is entirely
commented out (writes nothing), an MS2 spectrum contributes the first hit of
`scorer.score`, other levels contribute nothing.  Returns (quant-CSV data
rows, collected scores). -/
def spsLoop (score1 : Spectrum → Option Feature) :
    List Spectrum → List (List String) × List Feature
  | [] => ([], [])
  | sp :: rest =>
    let pr := spsLoop score1 rest
    if sp.level = 3 then (pr.1, pr.2)
    else if sp.level = 2 then
      (pr.1, match score1 sp with
        | some hit => hit :: pr.2
        | none => pr.2)
    else (pr.1, pr.2)

/-- Pre-sort PSMs of the files-sequential routine: every spectrum is processed
(no `min_peaks` filter, lines 166–169), and each MS2 spectrum yields at most
its first hit. -/
def spsPsms (env : Env) (s : Search) (spectra : List Spectrum) : List Feature :=
  (spsLoop (fun sp => (env.score sp s.report_psms).head?) (spectra.map env.process)).2

/-- The claim-level restatement of the files-sequential pre-sort PSMs: process
all spectra, keep MS2 ones, take the first returned PSM of each. -/
def spsPsmsSpec (env : Env) (s : Search) (spectra : List Spectrum) : List Feature :=
  ((spectra.map env.process).filter (fun sp => sp.level = 2)).filterMap
    (fun sp => (env.score sp s.report_psms).head?)

/-- The quant CSV header written at lines 175–191 (12 columns). -/
def quantHeader : List String :=
  ["scannr", "tmt_1", "tmt_2", "tmt_3", "tmt_4", "tmt_5", "tmt_6", "tmt_7",
    "tmt_8", "tmt_9", "tmt_10", "tmt_11"]

/-- All rows of the quant CSV produced by the files-sequential routine: the
header plus whatever data rows the loop writes. -/
def quantCsvRows (env : Env) (s : Search) (spectra : List Spectrum) :
    List (List String) :=
  quantHeader ::
    (spsLoop (fun sp => (env.score sp s.report_psms).head?) (spectra.map env.process)).1

/-- Descending order on discriminant score (comparator of line 109). -/
def discLE (a b : Feature) : Prop := b.discriminant_score ≤ a.discriminant_score

/-- Ascending order on poisson (comparator of lines 112 and 224). -/
def poisLE (a b : Feature) : Prop := a.poisson ≤ b.poisson

/-- What `par_sort_unstable_by` guarantees: a permutation of the input, sorted
by the comparator; tie order is unspecified. -/
def sortsTo (r : Feature → Feature → Prop) (l out : List Feature) : Prop :=
  l.Perm out ∧ List.Sorted r out

/-- The files-parallel per-file routine (`process_mzml_file`, lines 77–143) as
a relation from inputs to written PSM rows: score, rescore via `ldaScore`
(sort by discriminant on success, by poisson on fallback), assign q-values,
then enumerate `specid`.  Nondeterministic only through the unstable sort. -/
def parRoutine (env : Env) (s : Search) (spectra : List Spectrum)
    (rows : List Feature) : Prop :=
  ∃ sorted,
    (match env.ldaScore (parPsms env s spectra) with
     | some scored => sortsTo discLE scored sorted
     | none => sortsTo poisLE (parPsms env s spectra) sorted) ∧
    rows = enumerateSpecid (assignQValues sorted)

/-- The files-sequential per-file routine (`process_mzml_file_sps`, lines
145–254) as a relation: no peak filter, first hit per MS2 spectrum, no
rescoring, sort by poisson ascending, assign q-values, enumerate `specid`. -/
def spsRoutine (env : Env) (s : Search) (spectra : List Spectrum)
    (rows : List Feature) : Prop :=
  ∃ sorted, sortsTo poisLE (spsPsms env s spectra) sorted ∧
    rows = enumerateSpecid (assignQValues sorted)

/-- Default feature (used as the `getD` fallback in row statements). -/
def defFeature : Feature := ⟨0, 0, 0, 0, 0, 0, 0, 0, 0, 0⟩

/-- The sps loop never writes a quant-CSV data row: the MS3 branch is fully
commented out and no other branch writes. -/
theorem spsLoop_csv_nil (score1 : Spectrum → Option Feature) :
    ∀ (l : List Spectrum), (spsLoop score1 l).1 = [] := by
  intro l
  induction l with
  | nil => rfl
  | cons sp rest ih =>
    simp only [spsLoop]
    by_cases h3 : sp.level = 3
    · simp [h3, ih]
    · by_cases h2 : sp.level = 2
      · simp [h3, h2, ih]
      · simp [h3, h2, ih]

/-- The scores collected by the sps loop are the first hits of the MS2
spectra, in order. -/
theorem spsLoop_scores (score1 : Spectrum → Option Feature) :
    ∀ (l : List Spectrum),
      (spsLoop score1 l).2 = (l.filter (fun sp => sp.level = 2)).filterMap score1 := by
  intro l
  induction l with
  | nil => rfl
  | cons sp rest ih =>
    simp only [spsLoop]
    by_cases h3 : sp.level = 3
    · have h2 : ¬(sp.level = 2) := by omega
      simp [h3, h2, ih, List.filter_cons]
    · by_cases h2 : sp.level = 2
      · cases hs : score1 sp with
        | none => simp [h3, h2, ih, List.filter_cons, List.filterMap_cons, hs]
        | some hit => simp [h3, h2, ih, List.filter_cons, List.filterMap_cons, hs]
      · simp [h3, h2, ih, List.filter_cons]

theorem spsPsms_eq_spec (env : Env) (s : Search) (spectra : List Spectrum) :
    spsPsms env s spectra = spsPsmsSpec env s spectra := by
  rw [spsPsms, spsLoop_scores, spsPsmsSpec]

/-- Erase the only field `assignQValues` writes. -/
def stripQ (f : Feature) : Feature := { f with spectrum_q := 0 }

theorem sweepQ_fst :
    ∀ (l : List Feature) (d t : Nat), (sweepQ d t l).map Prod.fst = l := by
  intro l
  induction l with
  | nil => intro d t; rfl
  | cons f rest ih =>
    intro d t
    simp only [sweepQ, List.map_cons]
    rw [ih]

theorem monotonizeQ_strip :
    ∀ (pl : List (Feature × ℚ)),
      ((monotonizeQ pl).1).map stripQ = (pl.map Prod.fst).map stripQ := by
  intro pl
  induction pl with
  | nil => rfl
  | cons fq rest ih =>
    obtain ⟨f, q⟩ := fq
    simp only [monotonizeQ, List.map_cons]
    congr 1

theorem assignQ_strip (l : List Feature) :
    (assignQValues l).map stripQ = l.map stripQ := by
  rw [assignQValues, monotonizeQ_strip, sweepQ_fst]

theorem assignQ_length (l : List Feature) : (assignQValues l).length = l.length := by
  have h := congrArg List.length (assignQ_strip l)
  simpa using h

/-- Two lists with equal `stripQ` images have equal images under any field
reader that ignores `spectrum_q`. -/
theorem map_key_of_strip (g : Feature → ℚ) (hg : ∀ f, g (stripQ f) = g f)
    {l1 l2 : List Feature} (h : l1.map stripQ = l2.map stripQ) :
    l1.map g = l2.map g := by
  have hc : g ∘ stripQ = g := funext hg
  have e1 : ∀ l : List Feature, l.map g = (l.map stripQ).map g := by
    intro l
    rw [List.map_map, hc]
  rw [e1 l1, e1 l2, h]

theorem enumSpecidFrom_length :
    ∀ (l : List Feature) (k : Nat), (enumSpecidFrom k l).length = l.length := by
  intro l
  induction l with
  | nil => intro k; rfl
  | cons f rest ih =>
    intro k
    simp only [enumSpecidFrom, List.length_cons, ih]

theorem enumSpecidFrom_map_key (g : Feature → ℚ)
    (hg : ∀ (f : Feature) (n : Nat), g { f with specid := n } = g f) :
    ∀ (l : List Feature) (k : Nat), (enumSpecidFrom k l).map g = l.map g := by
  intro l
  induction l with
  | nil => intro k; rfl
  | cons f rest ih =>
    intro k
    simp only [enumSpecidFrom, List.map_cons, hg, ih]

theorem enumSpecidFrom_specid :
    ∀ (l : List Feature) (k i : Nat), i < l.length →
      ((enumSpecidFrom k l).getD i defFeature).specid = k + i := by
  intro l
  induction l with
  | nil => intro k i h; simp at h
  | cons f rest ih =>
    intro k i h
    cases i with
    | zero => rfl
    | succ i2 =>
      have h2 := ih (k + 1) i2 (by simp at h; omega)
      simp only [enumSpecidFrom, List.getD_cons_succ, h2]
      omega

/-- Sortedness along a field reader transfers across equal key images. -/
theorem sorted_key_transfer (key : Feature → ℚ) (r : ℚ → ℚ → Prop)
    {l1 l2 : List Feature} (h : l1.map key = l2.map key)
    (hs : List.Pairwise (fun a b => r (key a) (key b)) l1) :
    List.Pairwise (fun a b => r (key a) (key b)) l2 := by
  have h1 := List.pairwise_map.mpr hs
  rw [h] at h1
  exact List.pairwise_map.mp h1

/-- Database for the C1 failing input: every handle maps to a short peptide. -/
def dbC1 : IndexedDatabase := fun _ => ⟨[0, 6], 0⟩

/-- The C1 failing input: one PSM with decoy label, so the training set
(label = 1 and spectrum_q ≤ 0.01) is empty — fewer than FEATURES = 63. -/
def featC1 : Feature := ⟨0, 1, -1, 0, 0, 0, 1 / 2, 1 / 2, 0, 0⟩

/-- Claim C1: the claim (and the comment at line 15 of the source) says a
training set smaller than FEATURES = 63, or R² < 0.7, makes `fit` return no
model and `predict` a no-op.  The code has no size or R² check: here the
training set is empty, yet `fit` returns a model and `predict` overwrites
`predicted_rt` of the feature from 1/2 to 0. -/
theorem claim_C1 :
    (RetentionModel.fit (fun x => x) dbC1 [featC1]).isSome = true ∧
    predict (fun x => x) dbC1 [featC1]
      = some [applyModel (fun x => x) dbC1 ⟨fun _ => 0, aaIndexMap, 1⟩ featC1] ∧
    (applyModel (fun x => x) dbC1 ⟨fun _ => 0, aaIndexMap, 1⟩ featC1).predicted_rt = 0 ∧
    featC1.predicted_rt = 1 / 2 := by
  have hfilter : [featC1].filter trainFilter = [] := by
    simp [List.filter, trainFilter, featC1]
  have hfit := fit_of_empty_training (fun x => x) dbC1 [featC1] hfilter
  have hpp : RetentionModel.predict_peptide (fun x => x)
      ⟨fun _ => 0, aaIndexMap, 1⟩ dbC1 featC1 = 0 := by
    rw [RetentionModel.predict_peptide]
    simp
  refine ⟨by rw [hfit]; rfl, ?_, ?_, rfl⟩
  · have h := predict_of_fit (fun x => x) dbC1 [featC1] _ hfit
    simpa using h
  · show clampQ (RetentionModel.predict_peptide (fun x => x)
      ⟨fun _ => 0, aaIndexMap, 1⟩ dbC1 featC1) 0 1 = 0
    rw [hpp, clampQ]
    norm_num

/-- Claim C6 counterexample input: the length-3 peptide ACD. -/
def pepC6 : Peptide := ⟨[0, 2, 3], 0⟩

/-- Claim C6 counterexample: for the length-3 peptide ACD the claim puts
residue A (at position 0 = length−3) in the C-terminal block with count 1, but
the embedding holds 0 at index `40 + aaIndexMap A`: the `0 | 1` match arm
shadows the C-terminal arm for short peptides. -/
theorem claim_C6_counterexample :
    getq (RetentionModel.embed (fun x => x) pepC6 aaIndexMap) (40 + aaIndexMap 0) = 0 ∧
    ((pepC6.sequence.drop (pepC6.sequence.length - 3)).take 2).count 0 = 1 := by
  constructor
  · exact embed_cterm_zero_short (fun x => x) pepC6 (by decide) _
      (Nat.le_add_right 40 _) (by have := aaIndexMap_lt 0; omega)
  · decide

/-- Claim C6 (amended: peptides of length ≥ 5 over valid residues): the
embedding has length FEATURES = 63; index `aaIndexMap a` counts residue `a`
over the whole sequence, `20 + aaIndexMap a` over the first two positions,
`40 + aaIndexMap a` over positions length−3 and length−2; index 60 holds the
raw length, 61 `ln_1p` of the monoisotopic mass, 62 the constant 1. -/
theorem claim_C6 (ln1p : ℚ → ℚ) (p : Peptide)
    (hval : ∀ x ∈ p.sequence, x ∈ VALID_AA) (hlen : 5 ≤ p.sequence.length) :
    (RetentionModel.embed ln1p p aaIndexMap).length = FEATURES ∧ FEATURES = 63 ∧
    (∀ a ∈ VALID_AA,
      getq (RetentionModel.embed ln1p p aaIndexMap) (aaIndexMap a)
        = (p.sequence.count a : ℚ)) ∧
    (∀ a ∈ VALID_AA,
      getq (RetentionModel.embed ln1p p aaIndexMap) (20 + aaIndexMap a)
        = ((p.sequence.take 2).count a : ℚ)) ∧
    (∀ a ∈ VALID_AA,
      getq (RetentionModel.embed ln1p p aaIndexMap) (40 + aaIndexMap a)
        = (((p.sequence.drop (p.sequence.length - 3)).take 2).count a : ℚ)) ∧
    getq (RetentionModel.embed ln1p p aaIndexMap) 60 = (p.sequence.length : ℚ) ∧
    getq (RetentionModel.embed ln1p p aaIndexMap) 61 = ln1p p.monoisotopic ∧
    getq (RetentionModel.embed ln1p p aaIndexMap) 62 = 1 := by
  refine ⟨embed_length _ _ _, FEATURES_eq, ?_, ?_, ?_,
    embed_peplen _ _ _, embed_pepmass _ _ _, embed_intercept _ _ _⟩
  · intro a ha
    exact embed_count_all ln1p p a ha hval
  · intro a ha
    have h := embed_count_nterm ln1p p a ha hval
    rwa [N_TERMINAL_eq] at h
  · intro a ha
    have h := embed_count_cterm ln1p p a ha hval hlen
    rwa [C_TERMINAL_eq] at h

/-- Claim C6 witness input: the length-5 peptide ACDEF. -/
def pepC6w : Peptide := ⟨[0, 2, 3, 4, 5], 7⟩

theorem claim_C6_witness :
    (∀ x ∈ pepC6w.sequence, x ∈ VALID_AA) ∧ 5 ≤ pepC6w.sequence.length ∧
    getq (RetentionModel.embed (fun x => x) pepC6w aaIndexMap) (40 + aaIndexMap 3) = 1 ∧
    getq (RetentionModel.embed (fun x => x) pepC6w aaIndexMap) 62 = 1 := by
  have h := claim_C6 (fun x => x) pepC6w (by decide) (by decide)
  refine ⟨by decide, by decide, ?_, h.2.2.2.2.2.2.2⟩
  have h3 := h.2.2.2.2.1 3 (by decide)
  have hc : ((pepC6w.sequence.drop (pepC6w.sequence.length - 3)).take 2).count 3 = 1 := by
    decide
  rw [h3, hc, Nat.cast_one]

/-- Claim C10 (amended): for peptides of length ≤ 3 the C-terminal window
start saturates to 0, but positions 0 and 1 match the `0 | 1` arm first, so
the C-terminal block receives no counts: indices 40..60 are all zero (instead
of duplicating the N-terminal block as the claim says). -/
theorem claim_C10 (ln1p : ℚ → ℚ) (p : Peptide) (hlen : p.sequence.length ≤ 3) :
    p.sequence.length - 3 = 0 ∧
    ∀ j, 40 ≤ j → j < 60 → getq (RetentionModel.embed ln1p p aaIndexMap) j = 0 := by
  refine ⟨by omega, ?_⟩
  intro j h40 h60
  exact embed_cterm_zero_short ln1p p hlen j h40 h60

/-- Claim C10 counterexample input: the length-2 peptide AG. -/
def pepC10 : Peptide := ⟨[0, 6], 0⟩

/-- Claim C10 counterexample: the claim asserts that for short peptides the
residues at positions 0 and 1 are counted in both the N-terminal and the
C-terminal block.  For AG, residue G is counted at `20 + aaIndexMap G` but the
C-terminal entry `40 + aaIndexMap G` is 0, not 1. -/
theorem claim_C10_counterexample :
    getq (RetentionModel.embed (fun x => x) pepC10 aaIndexMap) (20 + aaIndexMap 6) = 1 ∧
    getq (RetentionModel.embed (fun x => x) pepC10 aaIndexMap) (40 + aaIndexMap 6) = 0 := by
  constructor
  · have h := embed_count_nterm (fun x => x) pepC10 6 (by decide) (by decide)
    rw [N_TERMINAL_eq] at h
    have hc : (pepC10.sequence.take 2).count 6 = 1 := by decide
    rw [h, hc, Nat.cast_one]
  · exact embed_cterm_zero_short (fun x => x) pepC10 (by decide) _
      (Nat.le_add_right 40 _) (by have := aaIndexMap_lt 6; omega)

theorem claim_C10_witness :
    pepC10.sequence.length ≤ 3 ∧ pepC10.sequence.length - 3 = 0 ∧
    getq (RetentionModel.embed (fun x => x) pepC10 aaIndexMap) 45 = 0 := by
  have h := claim_C10 (fun x => x) pepC10 (by decide)
  exact ⟨by decide, h.1, h.2 45 (by omega) (by omega)⟩

/-- Claim C7: `fit` trains on exactly the features with label = 1 and
spectrum_q ≤ 0.01; the ridge 0.1 is added to every diagonal entry of XᵀX; the
(spec-modelled) Gaussian elimination with partial pivoting fails exactly when
a pivot magnitude below 1e-12 is met. -/
theorem claim_C7 (ln1p : ℚ → ℚ) (db : IndexedDatabase) (ts : List Feature) :
    (∀ f : Feature, trainFilter f = true ↔ (f.label = 1 ∧ f.spectrum_q ≤ 1 / 100)) ∧
    RetentionModel.fit ln1p db ts = RetentionModel.fit ln1p db (ts.filter trainFilter) ∧
    (∀ (X : List (List ℚ)) (i j : Fin FEATURES),
      ridgeCov X i j = gram X i j + if i = j then 1 / 10 else 0) ∧
    (RetentionModel.fit ln1p db ts = none
      ↔ ∃ p ∈ pivotsTrace FEATURES (ridgeCov (trainingX ln1p db ts)), p < PIVOT_EPS) :=
  ⟨trainFilter_iff, fit_filter_only ln1p db ts, fun _ _ _ => rfl,
    (fit_none_iff_gauss ln1p db ts).trans (gaussSolve_none_iff FEATURES _ _)⟩

/-- Claim C8: after a successful fit, `predict` maps every feature through the
clamped linear model: `predicted_rt` is the clamp of the linear output to
[0, 1] (hence between 0 and 1), `aligned_rt` is untouched, and
`delta_rt_model = |aligned_rt − predicted_rt|`. -/
theorem claim_C8 (ln1p : ℚ → ℚ) (db : IndexedDatabase) (feats : List Feature)
    (lr : RetentionModel) (h : RetentionModel.fit ln1p db feats = some lr) :
    predict ln1p db feats = some (feats.map (applyModel ln1p db lr)) ∧
    ∀ f ∈ feats,
      (applyModel ln1p db lr f).predicted_rt
          = clampQ (RetentionModel.predict_peptide ln1p lr db f) 0 1 ∧
      0 ≤ (applyModel ln1p db lr f).predicted_rt ∧
      (applyModel ln1p db lr f).predicted_rt ≤ 1 ∧
      (applyModel ln1p db lr f).aligned_rt = f.aligned_rt ∧
      (applyModel ln1p db lr f).delta_rt_model
          = |(applyModel ln1p db lr f).aligned_rt
              - (applyModel ln1p db lr f).predicted_rt| := by
  refine ⟨predict_of_fit ln1p db feats lr h, ?_⟩
  intro f _
  exact ⟨rfl, (clampQ_mem _).1, (clampQ_mem _).2, rfl, rfl⟩

/-- Database and feature for the C8 witness. -/
def dbC8 : IndexedDatabase := fun _ => ⟨[0, 2], 0⟩

def featC8 : Feature := ⟨0, 3, -1, 0, 0, 0, 1 / 2, 1 / 2, 0, 0⟩

theorem claim_C8_witness :
    RetentionModel.fit (fun x => x) dbC8 [featC8]
      = some ⟨fun _ => 0, aaIndexMap, 1⟩ ∧
    predict (fun x => x) dbC8 [featC8]
      = some ([featC8].map (applyModel (fun x => x) dbC8 ⟨fun _ => 0, aaIndexMap, 1⟩)) ∧
    0 ≤ (applyModel (fun x => x) dbC8 ⟨fun _ => 0, aaIndexMap, 1⟩ featC8).predicted_rt ∧
    (applyModel (fun x => x) dbC8 ⟨fun _ => 0, aaIndexMap, 1⟩ featC8).predicted_rt ≤ 1 := by
  have hfilter : [featC8].filter trainFilter = [] := by
    simp [List.filter, trainFilter, featC8]
  have hfit := fit_of_empty_training (fun x => x) dbC8 [featC8] hfilter
  have h := claim_C8 (fun x => x) dbC8 [featC8] ⟨fun _ => 0, aaIndexMap, 1⟩ hfit
  have hmem : featC8 ∈ [featC8] := by simp
  exact ⟨hfit, h.1, (h.2 featC8 hmem).2.1, (h.2 featC8 hmem).2.2.1⟩

/-- The C2 failing input: chimera on, a ±0.1 Da window (width 0.2 < 2.5 Da),
report_psms = 2, isotope_errors = (0, 0). -/
def sC2 : Search :=
  ⟨Tolerance.da (-(1 / 10)) (1 / 10), (0, 0), true, 2, 15, 150, true⟩

/-- As `sC2` but with isotope_errors = (0, 1). -/
def sC2iso : Search :=
  ⟨Tolerance.da (-(1 / 10)) (1 / 10), (0, 1), true, 2, 15, 150, true⟩

/-- Claim C2 counterexample: at `sC2` the tolerance is widened to ±1.25 Da but
the report_psms used for scoring stays 2 — the code only logs "overriding";
and at `sC2iso` (chimera on, same narrow window, max isotope error 1) no
widening happens at all, so the claim's trigger is also wrong. -/
theorem claim_C2_counterexample :
    sC2.chimera = true ∧ (1 / 10 : ℚ) - (-(1 / 10)) < 5 / 2 ∧
    scoringParams sC2 = (Tolerance.da (-(5 / 4)) (5 / 4), 2) ∧
    (2 : Nat) ≠ 1 ∧
    sC2iso.chimera = true ∧
    scoringParams sC2iso = (Tolerance.da (-(1 / 10)) (1 / 10), 2) := by
  refine ⟨rfl, by norm_num, ?_, by norm_num, rfl, ?_⟩
  · norm_num [scoringParams, effectivePrecursorTol, sC2, min_def, max_def]
  · norm_num [scoringParams, effectivePrecursorTol, sC2iso]

/-- Claim C2 (amended): when chimera is on and the max isotope error is below
1, a Da window (lo, hi) becomes (min lo −1.25, max hi 1.25) and a ppm window
is replaced by ±1.25 Da; otherwise the tolerance is unchanged; and the
report_psms used for scoring is never modified. -/
theorem claim_C2 (s : Search) (lo hi : ℚ) :
    ((s.chimera = true ∧ s.isotope_errors.2 < 1) →
      s.precursor_tol = Tolerance.da lo hi →
      effectivePrecursorTol s = Tolerance.da (min lo (-(5 / 4))) (max hi (5 / 4))) ∧
    ((s.chimera = true ∧ s.isotope_errors.2 < 1) →
      ∀ plo phi, s.precursor_tol = Tolerance.ppm plo phi →
      effectivePrecursorTol s = Tolerance.da (-(5 / 4)) (5 / 4)) ∧
    (¬(s.chimera = true ∧ s.isotope_errors.2 < 1) →
      effectivePrecursorTol s = s.precursor_tol) ∧
    (scoringParams s).2 = s.report_psms := by
  refine ⟨?_, ?_, ?_, rfl⟩
  · intro hc hp
    rw [effectivePrecursorTol, if_pos hc, hp]
  · intro hc plo phi hp
    rw [effectivePrecursorTol, if_pos hc, hp]
  · intro hc
    rw [effectivePrecursorTol, if_neg hc]

theorem claim_C2_witness :
    effectivePrecursorTol sC2
        = Tolerance.da (min (-(1 / 10)) (-(5 / 4))) (max (1 / 10) (5 / 4)) ∧
    (scoringParams sC2).2 = sC2.report_psms :=
  ⟨(claim_C2 sC2 (-(1 / 10)) (1 / 10)).1 ⟨rfl, by decide⟩ rfl,
    (claim_C2 sC2 0 0).2.2.2⟩

/-- Claim C3 counterexample: configuration loads, database builds, the only
input file fails — the claim says the exit code is nonzero (zero output files
were produced), but `main` still returns `Ok(())`: exit code 0. -/
theorem claim_C3_counterexample : mainExitCode true true [false] true = 0 := by
  norm_num [mainExitCode]

/-- Claim C3 (amended): the exit code is 0 iff the configuration loaded, the
database built, and the results.json summary was written; per-file outcomes —
even all files failing — never affect the exit code. -/
theorem claim_C3 (configOk dbOk summaryOk : Bool) (fileOk fileOk2 : List Bool) :
    (mainExitCode configOk dbOk fileOk summaryOk = 0
      ↔ (configOk = true ∧ dbOk = true ∧ summaryOk = true)) ∧
    mainExitCode configOk dbOk fileOk summaryOk
      = mainExitCode configOk dbOk fileOk2 summaryOk := by
  cases configOk <;> cases dbOk <;> cases summaryOk <;> simp [mainExitCode]

/-- Claim C9: in the files-sequential path the quant CSV consists of exactly
the 12-column header row and zero data rows, whatever the spectra. -/
theorem claim_C9 (env : Env) (s : Search) (spectra : List Spectrum) :
    quantCsvRows env s spectra = [quantHeader] ∧ quantHeader.length = 12 := by
  constructor
  · rw [quantCsvRows, spsLoop_csv_nil]
  · rfl

/-- C4 counterexample fixtures: one low-peak MS2 spectrum the sequential path
scores but the parallel path filters out. -/
def fC4 : Feature := ⟨0, 1, 1, 0, 0, 0, 0, 0, 0, 0⟩

def envC4 : Env :=
  ⟨fun sp => sp, fun sp _ => if sp.level = 2 then [fC4] else [], fun _ => none⟩

def sC4 : Search := ⟨Tolerance.da 0 0, (0, 0), false, 1, 15, 150, false⟩

def spC4 : Spectrum := ⟨[], 2, 1⟩

def rowC4 : Feature := ⟨0, 1, 1, 0, 0, 1, 0, 0, 0, 0⟩

theorem spsRoutine_C4 : spsRoutine envC4 sC4 [spC4] [rowC4] := by
  refine ⟨[fC4], ⟨?_, ?_⟩, ?_⟩
  · have hp : spsPsms envC4 sC4 [spC4] = [fC4] := by
      rw [spsPsms]
      simp [spsLoop, envC4, sC4, spC4]
    rw [hp]
  · simp [List.Sorted]
  · norm_num [assignQValues, sweepQ, monotonizeQ, enumerateSpecid, enumSpecidFrom,
      fC4, rowC4]

/-- Claim C4 counterexample: on the same input the files-parallel routine can
only produce the empty row list (the spectrum has fewer than min_peaks peaks),
while the files-sequential routine produces one row — the two modes do not
produce the same PSM rows. -/
theorem claim_C4_counterexample :
    (∀ rows, parRoutine envC4 sC4 [spC4] rows → rows = []) ∧
    spsRoutine envC4 sC4 [spC4] [rowC4] ∧ ([rowC4] : List Feature) ≠ [] := by
  refine ⟨?_, spsRoutine_C4, by simp⟩
  intro rows h
  obtain ⟨sorted, hmatch, heq⟩ := h
  have hpar : parPsms envC4 sC4 [spC4] = [] := by
    simp [parPsms, envC4, sC4, spC4]
  have hlda : envC4.ldaScore [] = none := rfl
  simp only [hpar, hlda] at hmatch
  obtain ⟨hperm, _⟩ := hmatch
  have hsorted : sorted = [] := List.perm_nil.mp hperm.symm
  rw [heq, hsorted]
  rfl

/-- Claim C4 (amended): the sequential per-file routine differs from the
parallel one — it applies no min_peaks filter, keeps at most the first PSM of
each MS2 spectrum regardless of report_psms, performs no rescoring and sorts
by poisson ascending.  Its pre-sort PSM list equals the claim-level
restatement `spsPsmsSpec`, is bounded by the number of MS2 spectra, and every
output row list comes from a poisson-sorted permutation of it. -/
theorem claim_C4 (env : Env) (s : Search) (spectra : List Spectrum) :
    spsPsms env s spectra = spsPsmsSpec env s spectra ∧
    (spsPsms env s spectra).length
      ≤ ((spectra.map env.process).filter (fun sp => sp.level = 2)).length ∧
    ∀ rows, spsRoutine env s spectra rows →
      ∃ sorted, List.Perm (spsPsmsSpec env s spectra) sorted ∧
        List.Sorted poisLE sorted ∧ rows = enumerateSpecid (assignQValues sorted) := by
  refine ⟨spsPsms_eq_spec env s spectra, ?_, ?_⟩
  · rw [spsPsms_eq_spec, spsPsmsSpec]
    exact List.length_filterMap_le _ _
  · intro rows h
    obtain ⟨sorted, ⟨hperm, hsort⟩, heq⟩ := h
    refine ⟨sorted, ?_, hsort, heq⟩
    rw [← spsPsms_eq_spec env s spectra]
    exact hperm

theorem claim_C4_witness :
    ∃ sorted, List.Perm (spsPsmsSpec envC4 sC4 [spC4]) sorted ∧
      List.Sorted poisLE sorted ∧
      ([rowC4] : List Feature) = enumerateSpecid (assignQValues sorted) :=
  (claim_C4 envC4 sC4 [spC4]).2.2 [rowC4] spsRoutine_C4

/-- C5 fixtures: two PSMs with equal discriminant scores, different poisson
and scan ids. -/
def fB5 : Feature := ⟨0, 5, 1, 1, 1, 0, 0, 0, 0, 0⟩

def fC5 : Feature := ⟨0, 7, 1, 0, 1, 0, 0, 0, 0, 0⟩

def envC5 : Env :=
  ⟨fun sp => sp, fun sp _ => if sp.level = 2 then [fB5, fC5] else [], fun l => some l⟩

def sC5 : Search := ⟨Tolerance.da 0 0, (0, 0), false, 1, 0, 150, true⟩

def spC5 : Spectrum := ⟨[], 2, 1⟩

def rowB5 : Feature := ⟨0, 5, 1, 1, 1, 1 / 2, 0, 0, 0, 0⟩

def rowC5f : Feature := ⟨0, 7, 1, 0, 1, 1 / 2, 0, 0, 0, 1⟩

def rowC5a : Feature := ⟨0, 7, 1, 0, 1, 1 / 2, 0, 0, 0, 0⟩

def rowB5b : Feature := ⟨0, 5, 1, 1, 1, 1 / 2, 0, 0, 0, 1⟩

/-- The lexicographic order asserted by the claim: discriminant descending,
ties by poisson ascending, then scan id ascending. -/
def lexOrder (a b : Feature) : Prop :=
  b.discriminant_score < a.discriminant_score ∨
    (b.discriminant_score = a.discriminant_score ∧
      (a.poisson < b.poisson ∨ (a.poisson = b.poisson ∧ a.scannr ≤ b.scannr)))

theorem parPsms_C5 : parPsms envC5 sC5 [spC5] = [fB5, fC5] := by
  simp [parPsms, envC5, sC5, spC5]

theorem parRoutine_C5 : parRoutine envC5 sC5 [spC5] [rowB5, rowC5f] := by
  refine ⟨[fB5, fC5], ?_, ?_⟩
  · rw [parPsms_C5]
    show sortsTo discLE [fB5, fC5] [fB5, fC5]
    refine ⟨List.Perm.refl _, ?_⟩
    norm_num [List.sorted_cons, discLE, fB5, fC5]
  · norm_num [assignQValues, sweepQ, monotonizeQ, enumerateSpecid, enumSpecidFrom,
      fB5, fC5, rowB5, rowC5f, min_def]

theorem parRoutine_C5_swapped : parRoutine envC5 sC5 [spC5] [rowC5a, rowB5b] := by
  refine ⟨[fC5, fB5], ?_, ?_⟩
  · rw [parPsms_C5]
    show sortsTo discLE [fB5, fC5] [fC5, fB5]
    refine ⟨List.Perm.swap fC5 fB5 [], ?_⟩
    norm_num [List.sorted_cons, discLE, fB5, fC5]
  · norm_num [assignQValues, sweepQ, monotonizeQ, enumerateSpecid, enumSpecidFrom,
      fB5, fC5, rowC5a, rowB5b, min_def]

/-- Claim C5 counterexample: the routine admits an output whose discriminant
tie is NOT broken by poisson ascending (rowB5 has poisson 1 before rowC5f with
poisson 0), and it also admits the swapped output — the row order at ties is
not determined, against the claim. -/
theorem claim_C5_counterexample :
    parRoutine envC5 sC5 [spC5] [rowB5, rowC5f] ∧
    ¬ List.Sorted lexOrder [rowB5, rowC5f] ∧
    parRoutine envC5 sC5 [spC5] [rowC5a, rowB5b] ∧
    ([rowB5, rowC5f] : List Feature) ≠ [rowC5a, rowB5b] := by
  refine ⟨parRoutine_C5, ?_, parRoutine_C5_swapped, ?_⟩
  · intro h
    have h1 := List.rel_of_sorted_cons h rowC5f (by simp)
    norm_num [lexOrder, rowB5, rowC5f] at h1
  · intro h
    have h1 := List.head_eq_of_cons_eq h
    norm_num [rowB5, rowC5a] at h1

/-- Claim C5 (amended): every output row list of the files-parallel routine is
sorted by discriminant descending when the LDA rescoring succeeded (by poisson
ascending on its fallback) — with no tie-break beyond that, the unstable sort
leaving tie order unspecified — and the i-th row (0-based) carries
`specid = i`. -/
theorem claim_C5 (env : Env) (s : Search) (spectra : List Spectrum)
    (rows : List Feature) (h : parRoutine env s spectra rows) :
    ((env.ldaScore (parPsms env s spectra)).isSome = true →
      List.Sorted discLE rows) ∧
    (env.ldaScore (parPsms env s spectra) = none →
      List.Sorted poisLE rows) ∧
    ∀ i, i < rows.length → (rows.getD i defFeature).specid = i := by
  obtain ⟨sorted, hmatch, heq⟩ := h
  have hmapd : rows.map (fun f => f.discriminant_score)
      = sorted.map (fun f => f.discriminant_score) := by
    rw [heq, enumerateSpecid,
      enumSpecidFrom_map_key (fun f => f.discriminant_score) (fun f n => rfl)]
    exact map_key_of_strip (fun f => f.discriminant_score) (fun f => rfl)
      (assignQ_strip sorted)
  have hmapp : rows.map (fun f => f.poisson) = sorted.map (fun f => f.poisson) := by
    rw [heq, enumerateSpecid,
      enumSpecidFrom_map_key (fun f => f.poisson) (fun f n => rfl)]
    exact map_key_of_strip (fun f => f.poisson) (fun f => rfl)
      (assignQ_strip sorted)
  refine ⟨?_, ?_, ?_⟩
  · intro hsome
    obtain ⟨scored, hscored⟩ := Option.isSome_iff_exists.mp hsome
    rw [hscored] at hmatch
    have hm : sortsTo discLE scored sorted := hmatch
    exact sorted_key_transfer (fun f => f.discriminant_score) (fun x y => y ≤ x)
      hmapd.symm hm.2
  · intro hnone
    rw [hnone] at hmatch
    have hm : sortsTo poisLE (parPsms env s spectra) sorted := hmatch
    exact sorted_key_transfer (fun f => f.poisson) (fun x y => x ≤ y)
      hmapp.symm hm.2
  · intro i hi
    have hlen2 : rows.length = (assignQValues sorted).length := by
      rw [heq, enumerateSpecid, enumSpecidFrom_length]
    have hs := enumSpecidFrom_specid (assignQValues sorted) 0 i (by omega)
    rw [heq, enumerateSpecid]
    simpa using hs

theorem claim_C5_witness :
    List.Sorted discLE [rowB5, rowC5f] ∧
    (([rowB5, rowC5f] : List Feature).getD 0 defFeature).specid = 0 ∧
    (([rowB5, rowC5f] : List Feature).getD 1 defFeature).specid = 1 := by
  have h := claim_C5 envC5 sC5 [spC5] [rowB5, rowC5f] parRoutine_C5
  exact ⟨h.1 rfl, h.2.2 0 (by norm_num), h.2.2 1 (by norm_num)⟩
